import Mathlib

/-!
Verification of the DailyCounter daily-log state machine (src/App.tsx).

The embedding mirrors the source handlers on an explicit store state.
JavaScript strings are modelled by Lean strings; all string operations that
the source relies on (lexicographic comparison via the < operator, trim,
toLowerCase) are modelled as executable functions on the character list
of the string, matching code-unit semantics for the strings the app uses.
JavaScript numbers holding counts are modelled by Int (the source can
store negative values, see the manual-log handler); log objects are
modelled by association lists with unique keys, insertion ordered, as
JavaScript object literals are.
-/

namespace DailyCounter

/-- Lexicographic comparison of character lists, as the JavaScript <
operator compares strings code unit by code unit. -/
def listLtB : List Char → List Char → Bool
  | [], [] => false
  | [], _ :: _ => true
  | _ :: _, [] => false
  | a :: as, b :: bs => if a < b then true else if b < a then false else listLtB as bs

/-- JavaScript string comparison s1 < s2. -/
def strLtB (a b : String) : Bool := listLtB a.data b.data

/-- Whitespace recognised by trim (the characters that occur in practice). -/
def isWs (c : Char) : Bool := c = ' ' || c = '\t' || c = '\n' || c = '\r'

/-- Characters of a string with leading and trailing whitespace removed. -/
def trimChars (l : List Char) : List Char :=
  (((l.dropWhile isWs).reverse).dropWhile isWs).reverse

/-- JavaScript String.prototype.trim. -/
def jsTrim (s : String) : String := ⟨trimChars s.data⟩

/-- JavaScript String.prototype.toLowerCase (character-wise lowering). -/
def jsToLower (s : String) : String := ⟨s.data.map Char.toLower⟩

/-- Name normalisation used by handleCreateProject: trim, then lower case. -/
def normName (s : String) : String := jsToLower (jsTrim s)

section ListLtBOrder

lemma listLtB_cons (a b : Char) (as bs : List Char) :
    listLtB (a :: as) (b :: bs)
      = if a < b then true else if b < a then false else listLtB as bs := rfl

lemma listLtB_irrefl : ∀ l : List Char, listLtB l l = false
  | [] => rfl
  | a :: as => by
      rw [listLtB_cons, if_neg (lt_irrefl a), if_neg (lt_irrefl a)]
      exact listLtB_irrefl as

lemma listLtB_asymm : ∀ {l₁ l₂ : List Char}, listLtB l₁ l₂ = true → listLtB l₂ l₁ = false
  | [], [], _ => rfl
  | [], _ :: _, _ => rfl
  | _ :: _, [], h => by exact absurd h.symm (by simp [listLtB])
  | a :: as, b :: bs, h => by
      rcases lt_trichotomy a b with hab | hab | hab
      · rw [listLtB_cons, if_neg (lt_asymm hab), if_pos hab]
      · subst hab
        rw [listLtB_cons, if_neg (lt_irrefl a), if_neg (lt_irrefl a)] at h ⊢
        exact listLtB_asymm h
      · rw [listLtB_cons, if_neg (lt_asymm hab), if_pos hab] at h
        exact absurd h.symm (by simp)

lemma listLtB_conn : ∀ {l₁ l₂ : List Char},
    listLtB l₁ l₂ = false → listLtB l₂ l₁ = false → l₁ = l₂
  | [], [], _, _ => rfl
  | [], _ :: _, h, _ => by exact absurd h (by simp [listLtB])
  | _ :: _, [], _, h => by exact absurd h (by simp [listLtB])
  | a :: as, b :: bs, h₁, h₂ => by
      rcases lt_trichotomy a b with hab | hab | hab
      · rw [listLtB_cons, if_pos hab] at h₁
        exact absurd h₁ (by simp)
      · subst hab
        rw [listLtB_cons, if_neg (lt_irrefl a), if_neg (lt_irrefl a)] at h₁ h₂
        rw [listLtB_conn h₁ h₂]
      · rw [listLtB_cons, if_pos hab] at h₂
        exact absurd h₂ (by simp)

lemma listLtB_trans : ∀ {l₁ l₂ l₃ : List Char},
    listLtB l₁ l₂ = true → listLtB l₂ l₃ = true → listLtB l₁ l₃ = true
  | [], l₂, [], h₁, h₂ => by
      cases l₂ with
      | nil => exact h₁
      | cons b bs => exact absurd h₂.symm (by simp [listLtB])
  | [], _, _ :: _, _, _ => rfl
  | _ :: _, [], _, h₁, _ => by exact absurd h₁.symm (by simp [listLtB])
  | a :: as, b :: bs, [], _, h₂ => by exact absurd h₂.symm (by simp [listLtB])
  | a :: as, b :: bs, c :: cs, h₁, h₂ => by
      rcases lt_trichotomy a b with hab | hab | hab
      · rcases lt_trichotomy b c with hbc | hbc | hbc
        · rw [listLtB_cons, if_pos (lt_trans hab hbc)]
        · subst hbc
          rw [listLtB_cons, if_pos hab]
        · rw [listLtB_cons, if_neg (lt_asymm hbc), if_pos hbc] at h₂
          exact absurd h₂.symm (by simp)
      · subst hab
        rw [listLtB_cons, if_neg (lt_irrefl a), if_neg (lt_irrefl a)] at h₁
        rcases lt_trichotomy a c with hac | hac | hac
        · rw [listLtB_cons, if_pos hac]
        · subst hac
          rw [listLtB_cons, if_neg (lt_irrefl a), if_neg (lt_irrefl a)] at h₂ ⊢
          exact listLtB_trans h₁ h₂
        · rw [listLtB_cons, if_neg (lt_asymm hac), if_pos hac] at h₂
          exact absurd h₂.symm (by simp)
      · rw [listLtB_cons, if_neg (lt_asymm hab), if_pos hab] at h₁
        exact absurd h₁.symm (by simp)

lemma strLtB_irrefl (a : String) : strLtB a a = false := listLtB_irrefl a.data

lemma strLtB_asymm {a b : String} (h : strLtB a b = true) : strLtB b a = false :=
  listLtB_asymm h

lemma strLtB_conn {a b : String} (h₁ : strLtB a b = false) (h₂ : strLtB b a = false) :
    a = b := by
  cases a with
  | mk da => cases b with
    | mk db => exact congrArg String.mk (listLtB_conn h₁ h₂)

lemma strLtB_trans {a b c : String} (h₁ : strLtB a b = true) (h₂ : strLtB b c = true) :
    strLtB a c = true := listLtB_trans h₁ h₂

lemma strLtB_ne {a b : String} (h : strLtB a b = true) : a ≠ b := by
  rintro rfl
  rw [strLtB_irrefl] at h
  exact Bool.false_ne_true h

/-- Comes-no-later relation used to model the ascending default sort of the
source: a may precede b when not b < a. -/
def ascRel (a b : String) : Prop := strLtB b a = false

instance : DecidableRel ascRel := fun a b => instDecidableEqBool (strLtB b a) false

instance : IsTotal String ascRel :=
  ⟨fun a b => by
    by_cases h : strLtB b a = true
    · exact Or.inr (strLtB_asymm h)
    · exact Or.inl (Bool.eq_false_iff.mpr h)⟩

instance : IsTrans String ascRel :=
  ⟨fun a b c h₁ h₂ => by
    by_cases h : strLtB c a = true
    · by_cases hab : strLtB a b = true
      · exact absurd (strLtB_trans h hab) (Bool.eq_false_iff.mp h₂)
      · have : a = b := strLtB_conn (Bool.eq_false_iff.mpr hab) h₁
        subst this
        exact absurd h (Bool.eq_false_iff.mp h₂)
    · exact Bool.eq_false_iff.mpr h⟩

end ListLtBOrder

/-! ### Data model (interfaces DailyLog and Project of src/App.tsx) -/

/-- A DailyLog object: date-keyed counts, modelled as an insertion-ordered
association list with unique keys, as a JavaScript object literal is. -/
abbrev DailyLog := List (String × Int)

/-- Value of logs at a date, with the identifier-or-0 default the source
uses (p.logs at date, else 0). -/
def logLookup (logs : DailyLog) (d : String) : Int :=
  ((logs.find? (fun e => decide (e.1 = d))).map (fun e => e.2)).getD 0

/-- Setting a key in an object spread: replace the value in place when the
key is present, append the key otherwise. -/
def logSet (logs : DailyLog) (d : String) (v : Int) : DailyLog :=
  match logs with
  | [] => [(d, v)]
  | e :: es => if e.1 = d then (d, v) :: es else e :: logSet es d v

/-- The delete operator on an object key. -/
def logErase (logs : DailyLog) (d : String) : DailyLog :=
  logs.filter (fun e => decide (e.1 ≠ d))

/-- The Project interface of the source. -/
structure Project where
  id : String
  name : String
  count : Int
  logs : DailyLog
  createdAt : Nat
  lastActiveDate : String
deriving DecidableEq, Repr

/-- In-memory application state relevant to the claims: the project
collection and the currently selected project id. -/
structure Store where
  projects : List Project
  activeId : String
deriving DecidableEq, Repr

/-- Name given to the default project created on first run and by the
delete fall-back of the archive branch. -/
def defaultProjectName : String := "默認計數 (Default)"

/-- Name given to the replacement project when the last project is
permanently deleted. -/
def newItemProjectName : String := "新項目 (New Item)"

/-- The sentinel stored in lastActiveDate for archived projects. -/
def archivedSentinel : String := "ARCHIVED"

/-- The fresh default project built by the loader and by handleFactoryReset. -/
def mkDefaultProject (id : String) (now : Nat) (today : String) : Project :=
  { id := id, name := defaultProjectName, count := 0, logs := [],
    createdAt := now, lastActiveDate := today }

/-! ### ProjectStore operations (the handlers of src/App.tsx) -/

/-- handleIncrement: bump count and logs at today for the active project
and restamp lastActiveDate. -/
def handleIncrement (today : String) (st : Store) : Store :=
  { st with projects := st.projects.map (fun p =>
      if p.id = st.activeId then
        { p with count := p.count + 1, lastActiveDate := today,
                 logs := logSet p.logs today (logLookup p.logs today + 1) }
      else p) }

/-- handleReset: zero count and restamp lastActiveDate for the active
project; logs are not touched. -/
def handleReset (today : String) (st : Store) : Store :=
  { st with projects := st.projects.map (fun p =>
      if p.id = st.activeId then { p with count := 0, lastActiveDate := today }
      else p) }

/-- handleCreateProject: no-op on a name that trims to empty; restore the
first project with the same normalised name that is not active today, else
append a fresh project; select the resulting project. -/
def createProject (today freshId : String) (now : Nat) (rawName : String)
    (st : Store) : Store :=
  let trimmedName := jsTrim rawName
  if trimmedName = "" then st
  else
    match st.projects.find? (fun p =>
        decide (jsToLower (jsTrim p.name) = jsToLower trimmedName ∧
                p.lastActiveDate ≠ today)) with
    | some archivedProject =>
        { projects := st.projects.map (fun p =>
            if p.id = archivedProject.id then
              { p with lastActiveDate := today, count := 0 }
            else p),
          activeId := archivedProject.id }
    | none =>
        { projects := st.projects ++
            [{ id := freshId, name := trimmedName, count := 0, logs := [],
               createdAt := now, lastActiveDate := today }],
          activeId := freshId }

/-- The hasHistory test of requestDeleteProject: some log entry on a date
other than today with a positive value. -/
def hasHistoryB (today : String) (p : Project) : Bool :=
  p.logs.any (fun e => decide (e.1 ≠ today ∧ 0 < e.2))

/-- executeDelete on a project target. With history the project is
archived (count 0, lastActiveDate ARCHIVED, today's log entry cleared) and
if it was active the selection falls back to another project of today, else
a fresh default project is appended and selected. Without history the
project is removed; an emptied collection is replaced by a fresh project,
else if the removed project was active the selection falls back to a
project of today, else to the first remaining project. -/
def executeDeleteProject (today defaultId : String) (now : Nat) (st : Store)
    (id : String) (hasHistory : Bool) : Store :=
  if hasHistory then
    let archived := st.projects.map (fun p =>
      if p.id = id then
        { p with count := 0, lastActiveDate := archivedSentinel,
                 logs := logErase p.logs today }
      else p)
    if st.activeId = id then
      match st.projects.filter (fun p =>
          decide (p.id ≠ id ∧ p.lastActiveDate = today)) with
      | q :: _ => { projects := archived, activeId := q.id }
      | [] => { projects := archived ++ [mkDefaultProject defaultId now today],
                activeId := defaultId }
    else { projects := archived, activeId := st.activeId }
  else
    match st.projects.filter (fun p => decide (p.id ≠ id)) with
    | [] =>
        { projects := [{ id := defaultId, name := newItemProjectName, count := 0,
                         logs := [], createdAt := now, lastActiveDate := today }],
          activeId := defaultId }
    | r :: rs =>
        if st.activeId = id then
          { projects := r :: rs,
            activeId := (((r :: rs).find? (fun p =>
                decide (p.lastActiveDate = today))).getD r).id }
        else { projects := r :: rs, activeId := st.activeId }

/-- executeDelete on a log target: remove the single log key. -/
def executeDeleteLog (projectId date : String) (st : Store) : Store :=
  { st with projects := st.projects.map (fun p =>
      if p.id = projectId then { p with logs := logErase p.logs date } else p) }

/-- handleManualLogSubmit after input parsing: none models a count string
that parses to NaN (including the empty string), and the guard also
rejects an empty project selection. Zero removes the key, any other value
is stored; an edit dated today is mirrored into count and lastActiveDate. -/
def handleManualLogSubmit (today projectId date : String) (value? : Option Int)
    (st : Store) : Store :=
  match value? with
  | none => st
  | some count =>
      if projectId = "" then st
      else
        { st with projects := st.projects.map (fun p =>
            if p.id = projectId then
              { p with
                  logs := if count = 0 then logErase p.logs date
                          else logSet p.logs date count,
                  count := if date = today then count else p.count,
                  lastActiveDate := if date = today then today
                                    else p.lastActiveDate }
            else p) }

/-- Ordering of the visible list: the active project first, the rest by
name (the source uses localeCompare; code-unit order stands in for it and
no claim depends on the relative order). -/
def visRel (act : String) (a b : Project) : Prop :=
  if a.id = act then True else if b.id = act then False
  else strLtB b.name a.name = false

instance (act : String) : DecidableRel (visRel act) := fun a b => by
  unfold visRel
  infer_instance

/-- The visibleProjects memo: projects of today plus the active project,
sorted with the active project first. -/
def visibleProjects (today : String) (st : Store) : List Project :=
  List.insertionSort (visRel st.activeId)
    (st.projects.filter (fun p =>
      decide (p.lastActiveDate = today ∨ p.id = st.activeId)))

/-- Newest-first relation on creation time used by the manual-log project
selector. -/
def selRel (a b : Project) : Prop := b.createdAt ≤ a.createdAt

instance : DecidableRel selRel := fun a b => Nat.decLe b.createdAt a.createdAt

/-- uniqueProjectsForSelector: newest first, first occurrence of each
trimmed name, limited to ten. -/
def uniqueProjectsForSelector (ps : List Project) : List Project :=
  ((List.insertionSort selRel ps).foldl
    (fun (acc : List Project × List String) p =>
      if jsTrim p.name ∈ acc.2 then acc
      else (acc.1 ++ [p], acc.2 ++ [jsTrim p.name]))
    ([], [])).1.take 10

/-! ### Startup carryover (the useState initializer of src/App.tsx) -/

/-- The candidate date set of the carryover scan: every log key of every
project plus every lastActiveDate value, de-duplicated as a Set is. -/
def allDates (ps : List Project) : List String :=
  ((ps.flatMap (fun p => p.logs.map (fun e => e.1))) ++
    ps.map (fun p => p.lastActiveDate)).dedup

/-- sort().reverse().find(d below today): the carryover source date. -/
def latestBefore (dates : List String) (today : String) : Option String :=
  ((List.insertionSort ascRel dates).reverse).find? (fun d => strLtB d today)

/-- The smart-carryover step applied to the loaded project list. -/
def applyCarryover (today : String) (ps : List Project) : List Project :=
  if ps.any (fun p => decide (p.lastActiveDate = today)) then ps
  else
    match latestBefore (allDates ps) today with
    | none => ps
    | some latestDate =>
        ps.map (fun p =>
          if p.lastActiveDate = latestDate ∨ 0 < logLookup p.logs latestDate then
            { p with count := 0, lastActiveDate := today }
          else p)

/-! ### StatsEngine (the aggregatedStats memo of src/App.tsx) -/

/-- The per-name accumulator record, modelled as an insertion-ordered
association list from trimmed name to (total, occurrences). -/
abbrev StatsMap := List (String × Int × Nat)

/-- Initialise the accumulator entry for a name when absent. -/
def ensureName (m : StatsMap) (n : String) : StatsMap :=
  if m.any (fun e => decide (e.1 = n)) then m else m ++ [(n, 0, 0)]

/-- Add one qualifying log value to a name's total and occurrences. -/
def bumpName (m : StatsMap) (n : String) (v : Int) : StatsMap :=
  m.map (fun e => if e.1 = n then (n, e.2.1 + v, e.2.2 + 1) else e)

/-- The inner loop over one project's log entries: accumulate entries dated
at or after the start date with positive value. -/
def addLogs (start n : String) (m : StatsMap) (logs : DailyLog) : StatsMap :=
  logs.foldl (fun acc e =>
    if strLtB e.1 start = false ∧ 0 < e.2 then bumpName acc n e.2 else acc) m

/-- Processing of one project by the aggregation. -/
def addProject (start : String) (m : StatsMap) (p : Project) : StatsMap :=
  addLogs start (jsTrim p.name) (ensureName m (jsTrim p.name)) p.logs

/-- The statsByName record after the loop over all projects. -/
def statsByName (start : String) (ps : List Project) : StatsMap :=
  ps.foldl (addProject start) []

/-- One output row of the aggregated overview. -/
structure StatRow where
  name : String
  total : Int
  occurrences : Nat
deriving DecidableEq, Repr

/-- Descending-total relation of the output sort. -/
def aggRel (a b : StatRow) : Prop := b.total ≤ a.total

instance : DecidableRel aggRel := fun a b => Int.decLe b.total a.total

instance : IsTotal StatRow aggRel := ⟨fun a b => le_total b.total a.total⟩

instance : IsTrans StatRow aggRel := ⟨fun _ _ _ h₁ h₂ => le_trans h₂ h₁⟩

/-- aggregatedStats: rows from the accumulator, zero totals dropped,
sorted by descending total. -/
def aggregatedStats (start : String) (ps : List Project) : List StatRow :=
  List.insertionSort aggRel
    (((statsByName start ps).map (fun e =>
        { name := e.1, total := e.2.1, occurrences := e.2.2 : StatRow })).filter
      (fun r => decide (0 < r.total)))

/-! ### Specification-side aggregation quantities

These re-state, entry-wise, what the claims call the qualifying log
entries of a window, for comparison with the accumulator above. -/

/-- The log entries of one project that qualify for the window: dated at
or after the start date, with positive value. -/
def qualEntries (start : String) (p : Project) : DailyLog :=
  p.logs.filter (fun e => decide (strLtB e.1 start = false ∧ 0 < e.2))

/-- Sum of the qualifying values across the projects bearing a trimmed
name. -/
def specTotal (start : String) (ps : List Project) (n : String) : Int :=
  ((((ps.filter (fun p => decide (jsTrim p.name = n))).flatMap
      (qualEntries start))).map (fun e => e.2)).sum

/-- Number of qualifying log entries across the projects bearing a trimmed
name. -/
def specOcc (start : String) (ps : List Project) (n : String) : Nat :=
  ((ps.filter (fun p => decide (jsTrim p.name = n))).flatMap
    (qualEntries start)).length

/-- Number of distinct calendar days carrying a qualifying entry for a
trimmed name (what claim C8 asserts the occurrences column shows). -/
def specDistinctDays (start : String) (ps : List Project) (n : String) : Nat :=
  (((ps.filter (fun p => decide (jsTrim p.name = n))).flatMap
      (qualEntries start)).map (fun e => e.1)).dedup.length

/-! ### Reachable states

One constructor per user-reachable mutation of the running app, at a fixed
calendar day. Side conditions mirror the UI: deletion is requested from
the rendered visible list, the manual-log dialog offers the selector's
projects and dates up to today. Identifiers produced by generateId and
timestamps are arbitrary parameters. -/

inductive Reachable (today : String) : Store → Prop where
  | init (id : String) (now : Nat) :
      Reachable today { projects := [mkDefaultProject id now today], activeId := id }
  | create (st : Store) (rawName freshId : String) (now : Nat)
      (h : Reachable today st) :
      Reachable today (createProject today freshId now rawName st)
  | increment (st : Store) (h : Reachable today st) :
      Reachable today (handleIncrement today st)
  | reset (st : Store) (h : Reachable today st) :
      Reachable today (handleReset today st)
  | manualLog (st : Store) (projectId date : String) (value? : Option Int)
      (h : Reachable today st)
      (hsel : projectId ∈ (uniqueProjectsForSelector st.projects).map (fun p => p.id))
      (hdate : strLtB today date = false) :
      Reachable today (handleManualLogSubmit today projectId date value? st)
  | deleteVisible (st : Store) (p : Project) (defaultId : String) (now : Nat)
      (h : Reachable today st) (hvis : p ∈ visibleProjects today st) :
      Reachable today (executeDeleteProject today defaultId now st p.id
        (hasHistoryB today p))
  | deleteLog (st : Store) (projectId date : String) (h : Reachable today st)
      (hpos : ∃ p ∈ st.projects, p.id = projectId ∧ 0 < logLookup p.logs date) :
      Reachable today (executeDeleteLog projectId date st)

/-! ### Shared lemmas about the log operations -/

lemma logLookup_nil (k : String) : logLookup [] k = 0 := rfl

lemma logLookup_cons (e : String × Int) (es : DailyLog) (k : String) :
    logLookup (e :: es) k = if e.1 = k then e.2 else logLookup es k := by
  by_cases h : e.1 = k
  · simp [logLookup, List.find?, h]
  · simp [logLookup, List.find?, h]

lemma logLookup_logSet (logs : DailyLog) (d : String) (v : Int) (k : String) :
    logLookup (logSet logs d v) k = if k = d then v else logLookup logs k := by
  induction logs with
  | nil =>
      by_cases h : k = d
      · subst h; simp [logSet, logLookup_cons, logLookup_nil]
      · have h' : ¬ d = k := fun hh => h hh.symm
        simp [logSet, logLookup_cons, logLookup_nil, h, h']
  | cons e es ih =>
      by_cases hd : e.1 = d
      · by_cases hk : k = d
        · subst hk; simp [logSet, hd, logLookup_cons]
        · have h' : ¬ d = k := fun hh => hk hh.symm
          have h'' : ¬ e.1 = k := hd ▸ h'
          simp [logSet, hd, logLookup_cons, hk, h', h'']
      · by_cases hk : e.1 = k
        · have : ¬ k = d := fun hkd => hd (hk.trans hkd)
          simp [logSet, hd, logLookup_cons, hk, this]
        · simp [logSet, hd, logLookup_cons, hk, ih]

/-! ## Claim C2 — the increment and reset scenario -/

def c2today : String := "2024-06-01"

/-- Fresh first-run store: one default project. -/
def c2freshStore : Store :=
  { projects := [mkDefaultProject ("d0") 0 c2today], activeId := "d0" }

/-- State after creating the Push-ups project. -/
def c2s1 : Store := createProject c2today ("p1") 1 ("Push-ups") c2freshStore

/-- State after five increments. -/
def c2s5 : Store :=
  handleIncrement c2today (handleIncrement c2today (handleIncrement c2today
    (handleIncrement c2today (handleIncrement c2today c2s1))))

/-- State after the reset. -/
def c2s6 : Store := handleReset c2today c2s5

/-- State after two further increments. -/
def c2s8 : Store := handleIncrement c2today (handleIncrement c2today c2s6)

/-- Project lookup by id. -/
def projById (st : Store) (i : String) : Option Project :=
  st.projects.find? (fun p => decide (p.id = i))

/-- C2: from a freshly created project, five increments give count 5 and
logs at today 5; reset gives count 0 with logs at today still 5; two more
increments give count 2 and logs at today 7. -/
theorem increment_reset_scenario :
    (projById c2s1 ("p1")).map (fun p => (p.count, logLookup p.logs c2today))
        = some (0, 0) ∧
    (projById c2s5 ("p1")).map (fun p => (p.count, logLookup p.logs c2today))
        = some (5, 5) ∧
    (projById c2s6 ("p1")).map (fun p => (p.count, logLookup p.logs c2today))
        = some (0, 5) ∧
    (projById c2s8 ("p1")).map (fun p => (p.count, logLookup p.logs c2today))
        = some (2, 7) := by
  refine ⟨by decide, by decide, by decide, by decide⟩

/-! ## Claim C1 — the count and logs-at-today lock-step invariant -/

def c1today : String := "2024-06-01"

/-- A store satisfying the lock-step equality, about to be reset. -/
def c1st : Store :=
  { projects := [{ id := "a", name := "X", count := 1, logs := [(c1today, 1)],
                   createdAt := 0, lastActiveDate := c1today }],
    activeId := "a" }

/-- C1 counterexample: the lock-step equality holds before a Reset and
fails after it — Reset zeroes count while logs at today keeps its value,
so not every mutation keeps the two in lock-step. -/
theorem reset_breaks_lockstep :
    (c1st.projects.all (fun p =>
        decide (p.lastActiveDate = c1today → p.count = logLookup p.logs c1today))
      = true) ∧
    ((handleReset c1today c1st).projects.any (fun p =>
        decide (p.lastActiveDate = c1today ∧ p.count ≠ logLookup p.logs c1today))
      = true) := by
  refine ⟨by decide, by decide⟩

/-- C1 amended: Increment does keep count and logs at today in lock-step —
it preserves the store-wide equality of count with logs at today. (Reset,
restore and carryover intentionally zero count without touching logs, so
the equality is not an invariant of every mutation.) -/
theorem increment_preserves_lockstep (today : String) (st : Store)
    (h : ∀ p ∈ st.projects, p.count = logLookup p.logs today) :
    ∀ p ∈ (handleIncrement today st).projects, p.count = logLookup p.logs today := by
  intro p hp
  simp only [handleIncrement] at hp
  obtain ⟨q, hq, rfl⟩ := List.mem_map.mp hp
  by_cases hid : q.id = st.activeId
  · simp only [if_pos hid]
    rw [logLookup_logSet, if_pos rfl]
    exact congrArg (· + 1) (h q hq)
  · simp only [if_neg hid]
    exact h q hq

def c1wtoday : String := "2024-06-02"

def c1wst : Store :=
  { projects := [{ id := "a", name := "X", count := 2, logs := [(c1wtoday, 2)],
                   createdAt := 0, lastActiveDate := c1wtoday }],
    activeId := "a" }

def c1wproj : Project :=
  { id := "a", name := "X", count := 3, logs := [(c1wtoday, 3)],
    createdAt := 0, lastActiveDate := c1wtoday }

/-- Witness for the amended C1 theorem at a concrete store. -/
theorem increment_preserves_lockstep_witness :
    c1wproj.count = logLookup c1wproj.logs c1wtoday :=
  increment_preserves_lockstep c1wtoday c1wst (by decide) c1wproj (by decide)

/-! ## Claim C9 — non-negativity and manual-input validation -/

def c9today : String := "2024-07-01"

def c9st : Store :=
  { projects := [{ id := "a", name := "X", count := 3, logs := [(c9today, 3)],
                   createdAt := 0, lastActiveDate := c9today }],
    activeId := "a" }

/-- C9: the manual-log handler only rejects input whose parse is NaN; the
string -5 parses to the integer -5, passes the guard, and is stored into
logs and (for today) into count, leaving both negative. -/
theorem manual_log_stores_negative :
    ((projById (handleManualLogSubmit c9today ("a") c9today (some (-5)) c9st)
        ("a")).map (fun p => (p.count, logLookup p.logs c9today))
      = some (-5, -5)) ∧ ((-5 : Int) < 0) := by
  refine ⟨by decide, by decide⟩

/-! ## Claim C6 — archived projects and the visible-today set -/

def c6today : String := "2024-05-10"

def c6past : String := "2024-05-01"

def c6d0 : Project := mkDefaultProject ("d0") 0 c6today

def c6a : Project :=
  { id := "a1", name := "A", count := 0, logs := [], createdAt := 1,
    lastActiveDate := c6today }

def c6a2 : Project := { c6a with logs := [(c6past, 5)] }

def c6a3 : Project := { c6a2 with lastActiveDate := archivedSentinel }

def c6d1 : Project := mkDefaultProject ("d1") 2 c6today

def c6s0 : Store := { projects := [c6d0], activeId := "d0" }

def c6s1 : Store := { projects := [c6d0, c6a], activeId := "a1" }

def c6s2 : Store := { projects := [c6d0, c6a2], activeId := "a1" }

def c6s3 : Store := { projects := [c6a2], activeId := "a1" }

def c6s4 : Store := { projects := [c6a3, c6d1], activeId := "d1" }

def c6s5 : Store := { projects := [c6a3], activeId := "a1" }

/-- C6 counterexample: a reachable state whose visible-today set contains
an archived project. Trace: start fresh, create A, back-fill a past log
for A, delete the default project (permanent), delete A (archived; a new
default is appended and selected), delete that default (permanent; the
active-selection fall-back picks the archived A), so A is visible through
the id-equals-activeId disjunct while lastActiveDate is ARCHIVED. -/
theorem archived_project_visible_counterexample :
    Reachable c6today c6s5 ∧
    ((visibleProjects c6today c6s5).any (fun p =>
        decide (p.lastActiveDate = archivedSentinel)) = true) := by
  constructor
  · have h0 : Reachable c6today c6s0 := Reachable.init ("d0") 0
    have h1 : Reachable c6today c6s1 := by
      have h := Reachable.create c6s0 ("A") ("a1") 1 h0
      have e : createProject c6today ("a1") 1 ("A") c6s0 = c6s1 := by decide
      exact e ▸ h
    have h2 : Reachable c6today c6s2 := by
      have h := Reachable.manualLog c6s1 ("a1") c6past (some 5) h1 (by decide)
        (by decide)
      have e : handleManualLogSubmit c6today ("a1") c6past (some 5) c6s1 = c6s2 := by
        decide
      exact e ▸ h
    have h3 : Reachable c6today c6s3 := by
      have h := Reachable.deleteVisible c6s2 c6d0 ("dX") 9 h2 (by decide)
      have e : executeDeleteProject c6today ("dX") 9 c6s2 c6d0.id
          (hasHistoryB c6today c6d0) = c6s3 := by decide
      exact e ▸ h
    have h4 : Reachable c6today c6s4 := by
      have h := Reachable.deleteVisible c6s3 c6a2 ("d1") 2 h3 (by decide)
      have e : executeDeleteProject c6today ("d1") 2 c6s3 c6a2.id
          (hasHistoryB c6today c6a2) = c6s4 := by decide
      exact e ▸ h
    have h5 : Reachable c6today c6s5 := by
      have h := Reachable.deleteVisible c6s4 c6d1 ("dY") 3 h4 (by decide)
      have e : executeDeleteProject c6today ("dY") 3 c6s4 c6d1.id
          (hasHistoryB c6today c6d1) = c6s5 := by decide
      exact e ▸ h
    exact h5
  · decide

/-- C6 amended: in every state (reachable or not), an archived project can
appear in the visible-today set only as the currently selected project:
every visible project with lastActiveDate = ARCHIVED has id = activeId. -/
theorem visible_archived_is_active (today : String) (st : Store) (p : Project)
    (htoday : today ≠ archivedSentinel)
    (hp : p ∈ visibleProjects today st)
    (harch : p.lastActiveDate = archivedSentinel) :
    p.id = st.activeId := by
  rw [visibleProjects] at hp
  have hp' := (List.mem_insertionSort (visRel st.activeId)).mp hp
  have hmf := List.mem_filter.mp hp'
  have hcond := of_decide_eq_true hmf.2
  rcases hcond with hd | hid
  · exact absurd (hd.symm.trans harch) htoday
  · exact hid

/-- Witness for the amended C6 theorem at the counterexample state. -/
theorem visible_archived_is_active_witness : c6a3.id = c6s5.activeId :=
  visible_archived_is_active c6today c6s5 c6a3 (by decide) (by decide) (by decide)

/-! ## Claim C5 — permanent deletion of projects without history -/

lemma length_filter_split {α : Type} (l : List α) (p : α → Bool) :
    (l.filter p).length + (l.filter (fun a => !(p a))).length = l.length := by
  induction l with
  | nil => rfl
  | cons a as ih =>
      cases h : p a <;> simp [List.filter_cons, h] <;> omega

def c5today : String := "2024-03-03"

/-- A project with no log history at all. -/
def c5p : Project :=
  { id := "p0", name := "Solo", count := 0, logs := [], createdAt := 0,
    lastActiveDate := c5today }

/-- A store in which that project is the only one. -/
def c5st : Store := { projects := [c5p], activeId := "p0" }

/-- C5 counterexample: deleting the last remaining project (no history)
does not shrink the collection — the source replaces the emptied
collection with a fresh default project, so the size stays 1 instead of
decreasing to 0. -/
theorem delete_last_project_replaced :
    hasHistoryB c5today c5p = false ∧
    (executeDeleteProject c5today ("d9") 1 c5st ("p0")
        (hasHistoryB c5today c5p)).projects.length = 1 ∧
    (executeDeleteProject c5today ("d9") 1 c5st ("p0")
        (hasHistoryB c5today c5p)).projects.length
      ≠ c5st.projects.length - 1 := by
  refine ⟨by decide, by decide, by decide⟩

/-- C5 amended: deleting a project with hasHistory false (no positive log
entry on a date other than today) removes it permanently — the remaining
collection is exactly the other projects, unchanged, and the size drops by
one — provided at least one other project remains; deleting the last
project instead installs a single fresh default project. -/
theorem delete_no_history_removes (today defaultId : String) (now : Nat)
    (st : Store) (p : Project)
    (hmem : p ∈ st.projects)
    (hnodup : st.projects.Nodup)
    (hid : ∀ q ∈ st.projects, q.id = p.id → q = p)
    (hnh : hasHistoryB today p = false)
    (hother : ∃ q ∈ st.projects, q.id ≠ p.id) :
    (executeDeleteProject today defaultId now st p.id
        (hasHistoryB today p)).projects
      = st.projects.filter (fun q => decide (q.id ≠ p.id)) ∧
    (executeDeleteProject today defaultId now st p.id
        (hasHistoryB today p)).projects.length + 1 = st.projects.length := by
  have hrem : st.projects.filter (fun q => decide (q.id ≠ p.id)) ≠ [] := by
    obtain ⟨q, hq, hqid⟩ := hother
    intro hnil
    have hqmem : q ∈ st.projects.filter (fun q => decide (q.id ≠ p.id)) :=
      List.mem_filter.mpr ⟨hq, decide_eq_true hqid⟩
    rw [hnil] at hqmem
    exact absurd hqmem (List.not_mem_nil q)
  have hproj : (executeDeleteProject today defaultId now st p.id
      (hasHistoryB today p)).projects
      = st.projects.filter (fun q => decide (q.id ≠ p.id)) := by
    rw [executeDeleteProject, hnh]
    simp only [Bool.false_eq_true, if_false]
    cases hfil : st.projects.filter (fun q => decide (q.id ≠ p.id)) with
    | nil => exact absurd hfil hrem
    | cons r rs =>
        by_cases hact : st.activeId = p.id <;> simp [hact]
  refine ⟨hproj, ?_⟩
  rw [hproj]
  have hsplit := length_filter_split st.projects (fun q => decide (q.id ≠ p.id))
  have heq1 : (st.projects.filter (fun q => !(decide (q.id ≠ p.id)))).length = 1 := by
    have hcongr : st.projects.filter (fun q => !(decide (q.id ≠ p.id)))
        = st.projects.filter (fun q => q == p) := by
      apply List.filter_congr
      intro q hq
      by_cases h : q.id = p.id
      · have hqp : q = p := hid q hq h
        subst hqp
        simp
      · have hne : q ≠ p := fun hqp => h (congrArg Project.id hqp)
        simp [h, hne]
    rw [hcongr]
    have hcount := List.count_eq_one_of_mem hnodup hmem
    rw [List.count, List.countP_eq_length_filter] at hcount
    exact hcount
  omega

/-- A second project making the deletion non-final. -/
def c5wq : Project :=
  { id := "q1", name := "Other", count := 0, logs := [], createdAt := 5,
    lastActiveDate := c5today }

def c5wst : Store := { projects := [c5p, c5wq], activeId := "q1" }

/-- Witness for the amended C5 theorem at a concrete two-project store. -/
theorem delete_no_history_removes_witness :
    (executeDeleteProject c5today ("d8") 2 c5wst c5p.id
        (hasHistoryB c5today c5p)).projects
      = c5wst.projects.filter (fun q => decide (q.id ≠ c5p.id)) ∧
    (executeDeleteProject c5today ("d8") 2 c5wst c5p.id
        (hasHistoryB c5today c5p)).projects.length + 1
      = c5wst.projects.length :=
  delete_no_history_removes c5today ("d8") 2 c5wst c5p (by decide) (by decide)
    (by decide) (by decide) ⟨c5wq, by decide, by decide⟩

/-! ## Claim C4 — archive on delete, restore on create -/

lemma find?_eq_some_of_unique {α : Type} (l : List α) (pred : α → Bool) (a : α)
    (hmem : a ∈ l) (ha : pred a = true)
    (huniq : ∀ b ∈ l, pred b = true → b = a) :
    l.find? pred = some a := by
  induction l with
  | nil => exact absurd hmem (List.not_mem_nil a)
  | cons x xs ih =>
      cases hx : pred x
      · have hax : a ≠ x := by
          intro h
          rw [h, hx] at ha
          exact Bool.false_ne_true ha
        have hmem' : a ∈ xs := by
          rcases List.mem_cons.mp hmem with h | h
          · exact absurd h hax
          · exact h
        simp only [List.find?, hx]
        exact ih hmem' (fun b hb hpb => huniq b (List.mem_cons_of_mem x hb) hpb)
      · have hxa : x = a := huniq x (List.mem_cons_self x xs) hx
        subst hxa
        simp [List.find?, hx]

/-- C4: deleting a project with positive history before today archives it
(count 0, lastActiveDate ARCHIVED, today's log entry removed, earlier
entries retained), and creating a project whose name matches it up to
trimming and case restores the very same project — same id, lastActiveDate
today, count 0, remaining history intact — with every other project left
unchanged, provided the archived project is the sole bearer of that
normalised name and was not the selected project. -/
theorem archive_then_create_restores (today defaultId freshId rawName : String)
    (now1 now2 : Nat) (st : Store) (p : Project)
    (hmem : p ∈ st.projects)
    (hname : ∀ q ∈ st.projects, normName q.name = normName p.name → q = p)
    (hraw : normName rawName = normName p.name)
    (hrawne : jsTrim rawName ≠ "")
    (hhist : ∃ e ∈ p.logs, strLtB e.1 today = true ∧ 0 < e.2)
    (htoday : today ≠ archivedSentinel)
    (hactive : st.activeId ≠ p.id) :
    createProject today freshId now2 rawName
        (executeDeleteProject today defaultId now1 st p.id (hasHistoryB today p))
      = { projects := st.projects.map (fun q =>
            if q.id = p.id then
              { q with count := 0, lastActiveDate := today,
                       logs := logErase q.logs today }
            else q),
          activeId := p.id } := by
  have hhB : hasHistoryB today p = true := by
    obtain ⟨e, he, helt, hepos⟩ := hhist
    exact List.any_eq_true.mpr ⟨e, he, decide_eq_true ⟨strLtB_ne helt, hepos⟩⟩
  have hdel : executeDeleteProject today defaultId now1 st p.id
      (hasHistoryB today p)
      = { projects := st.projects.map (fun q =>
            if q.id = p.id then
              { q with count := 0, lastActiveDate := archivedSentinel,
                       logs := logErase q.logs today }
            else q),
          activeId := st.activeId } := by
    rw [executeDeleteProject, hhB]
    simp [hactive]
  rw [hdel, createProject]
  simp only [if_neg hrawne]
  set f : Project → Project := fun q =>
    if q.id = p.id then
      { q with count := 0, lastActiveDate := archivedSentinel,
               logs := logErase q.logs today }
    else q with hf
  have hfind : (st.projects.map f).find? (fun q =>
      decide (jsToLower (jsTrim q.name) = jsToLower (jsTrim rawName) ∧
              q.lastActiveDate ≠ today)) = some (f p) := by
    rw [List.find?_map]
    have hfp : (f p).name = p.name ∧ (f p).lastActiveDate = archivedSentinel := by
      rw [hf]
      simp
    have hinner : st.projects.find? (fun q =>
        decide (jsToLower (jsTrim (f q).name) = jsToLower (jsTrim rawName) ∧
                (f q).lastActiveDate ≠ today)) = some p := by
      apply find?_eq_some_of_unique st.projects _ p hmem
      · apply decide_eq_true
        refine ⟨?_, ?_⟩
        · rw [hfp.1]
          exact (hraw.symm : normName p.name = normName rawName)
        · rw [hfp.2]
          exact fun h => htoday h.symm
      · intro q hq hpq
        have hpq' := of_decide_eq_true hpq
        have hqname : (f q).name = q.name := by
          rw [hf]
          by_cases h : q.id = p.id <;> simp [h]
        rw [hqname] at hpq'
        exact hname q hq (hpq'.1.trans hraw)
    rw [show (fun q => decide (jsToLower (jsTrim q.name) = jsToLower (jsTrim rawName) ∧
            q.lastActiveDate ≠ today)) ∘ f
        = (fun q => decide (jsToLower (jsTrim (f q).name) = jsToLower (jsTrim rawName) ∧
            (f q).lastActiveDate ≠ today)) from rfl]
    rw [hinner]
    rfl
  rw [hfind]
  have hfpid : (f p).id = p.id := by
    rw [hf]
    simp
  simp only [hfpid]
  congr 1
  rw [List.map_map]
  apply List.map_congr_left
  intro q hq
  by_cases h : q.id = p.id <;> simp [Function.comp, hf, h]

def c4today : String := "2024-01-05"

/-- The Water project of the spec scenario, with history and a log today. -/
def c4p : Project :=
  { id := "w1", name := "Water", count := 3,
    logs := [("2024-01-01", 10), (c4today, 3)], createdAt := 0,
    lastActiveDate := c4today }

def c4other : Project :=
  { id := "o1", name := "Milk", count := 0, logs := [], createdAt := 1,
    lastActiveDate := c4today }

def c4st : Store := { projects := [c4p, c4other], activeId := "o1" }

def c4raw : String := "  WATER "

/-- Witness for the C4 theorem: deleting Water then creating a
differently-cased, padded name restores the same record. -/
theorem archive_then_create_restores_witness :
    createProject c4today ("f1") 7 c4raw
        (executeDeleteProject c4today ("d7") 6 c4st c4p.id
          (hasHistoryB c4today c4p))
      = { projects := c4st.projects.map (fun q =>
            if q.id = c4p.id then
              { q with count := 0, lastActiveDate := c4today,
                       logs := logErase q.logs c4today }
            else q),
          activeId := c4p.id } :=
  archive_then_create_restores c4today ("d7") ("f1") c4raw 6 7 c4st c4p
    (by decide) (by decide) (by decide) (by decide) (by decide) (by decide)
    (by decide)

/-! ## Claim C3 — the startup carryover -/

lemma find_desc (l : List String) (t D : String)
    (hs : List.Pairwise (fun a b => strLtB a b = false) l)
    (hmem : D ∈ l) (hlt : strLtB D t = true)
    (hmax : ∀ d ∈ l, strLtB d t = true → strLtB D d = false) :
    l.find? (fun d => strLtB d t) = some D := by
  induction l with
  | nil => exact absurd hmem (List.not_mem_nil D)
  | cons a as ih =>
      have hpw := List.pairwise_cons.mp hs
      cases ha : strLtB a t
      · have hDa : D ≠ a := by
          intro h
          rw [h, ha] at hlt
          exact Bool.false_ne_true hlt
        have hDmem : D ∈ as := (List.mem_cons.mp hmem).resolve_left hDa
        simp only [List.find?, ha]
        exact ih hpw.2 hDmem
          (fun d hd hdt => hmax d (List.mem_cons_of_mem a hd) hdt)
      · simp only [List.find?, ha]
        rcases List.mem_cons.mp hmem with hD | hD
        · rw [hD]
        · have h2 : strLtB a D = false := hpw.1 D hD
          have h1 : strLtB D a = false := hmax a (List.mem_cons_self a as) ha
          exact congrArg some (strLtB_conn h2 h1)

lemma latestBefore_eq_some (dates : List String) (t D : String)
    (hmem : D ∈ dates) (hlt : strLtB D t = true)
    (hmax : ∀ d ∈ dates, strLtB d t = true → strLtB D d = false) :
    latestBefore dates t = some D := by
  rw [latestBefore]
  apply find_desc
  · rw [List.pairwise_reverse]
    exact List.sorted_insertionSort ascRel dates
  · rw [List.mem_reverse, List.mem_insertionSort]
    exact hmem
  · exact hlt
  · intro d hd
    rw [List.mem_reverse, List.mem_insertionSort] at hd
    exact hmax d hd

/-- C3: when no loaded project is stamped today and D is the most recent
candidate date strictly before today (among all log keys and all
lastActiveDate values), carryover restamps exactly the projects whose
lastActiveDate is D or whose log at D is positive, zeroing their count and
leaving logs untouched, and leaves every other project unchanged. -/
theorem carryover_spec (today D : String) (ps : List Project)
    (h1 : ∀ p ∈ ps, p.lastActiveDate ≠ today)
    (hmem : D ∈ allDates ps)
    (hlt : strLtB D today = true)
    (hmax : ∀ d ∈ allDates ps, strLtB d today = true → strLtB D d = false) :
    applyCarryover today ps = ps.map (fun p =>
      if p.lastActiveDate = D ∨ 0 < logLookup p.logs D then
        { p with count := 0, lastActiveDate := today }
      else p) := by
  rw [applyCarryover]
  have hany : ps.any (fun p => decide (p.lastActiveDate = today)) = false := by
    rw [List.any_eq_false]
    intro p hp
    simp [h1 p hp]
  rw [hany]
  simp only [Bool.false_eq_true, if_false]
  rw [latestBefore_eq_some (allDates ps) today D hmem hlt hmax]

def c3today : String := "2024-01-05"

def c3D : String := "2024-01-01"

/-- The Water project of the spec carryover scenario. -/
def c3water : Project :=
  { id := "w", name := "Water", count := 10, logs := [(c3D, 10)],
    createdAt := 0, lastActiveDate := c3D }

/-- Witness for the C3 theorem at the spec scenario. -/
theorem carryover_spec_witness :
    applyCarryover c3today [c3water] = [c3water].map (fun p =>
      if p.lastActiveDate = c3D ∨ 0 < logLookup p.logs c3D then
        { p with count := 0, lastActiveDate := c3today }
      else p) :=
  carryover_spec c3today c3D [c3water] (by decide) (by decide) (by decide)
    (by decide)

/-! ## Claim C10 — ARCHIVED in the carryover candidate set -/

lemma isDigit_lt_A {c : Char} (h : c.isDigit = true) : c < 'A' := by
  have h2 : c ≤ '9' := by
    simp only [Char.isDigit, Bool.and_eq_true, decide_eq_true_eq] at h
    exact h.2
  exact lt_of_le_of_lt h2 (by decide)

/-- C10: every project's lastActiveDate enters the carryover candidate
set, so ARCHIVED can be a candidate; yet the date the scan selects is
never ARCHIVED, because only candidates lexicographically below today are
accepted and ARCHIVED is not below a date string (which starts with a
digit). -/
theorem carryover_source_not_archived (today : String) (ps : List Project)
    (c : Char) (cs : List Char) (hdata : today.data = c :: cs)
    (hdigit : c.isDigit = true) :
    (ps.any (fun p => decide (p.lastActiveDate = archivedSentinel)) = true →
        archivedSentinel ∈ allDates ps) ∧
      latestBefore (allDates ps) today ≠ some archivedSentinel := by
  constructor
  · intro hany
    obtain ⟨p, hp, hpa⟩ := List.any_eq_true.mp hany
    have hpa' := of_decide_eq_true hpa
    rw [allDates, List.mem_dedup, List.mem_append]
    right
    exact List.mem_map.mpr ⟨p, hp, hpa'⟩
  · intro hsome
    have hpred := List.find?_some hsome
    have hcA : c < 'A' := isDigit_lt_A hdigit
    have hAc : ¬ ('A' < c) := lt_asymm hcA
    have hfalse : strLtB archivedSentinel today = false := by
      rw [strLtB, hdata]
      rw [show archivedSentinel.data
          = 'A' :: ['R', 'C', 'H', 'I', 'V', 'E', 'D'] from rfl]
      rw [listLtB_cons, if_neg hAc, if_pos hcA]
    rw [hfalse] at hpred
    exact Bool.false_ne_true hpred

def c10today : String := "2024-05-10"

/-- An archived project contributing ARCHIVED to the candidate set. -/
def c10arch : Project :=
  { id := "z", name := "Z", count := 0, logs := [("2024-05-01", 3)],
    createdAt := 0, lastActiveDate := archivedSentinel }

def c10ps : List Project := [c10arch]

/-- Witness for the C10 theorem at a store with an archived project. -/
theorem carryover_source_not_archived_witness :
    (c10ps.any (fun p => decide (p.lastActiveDate = archivedSentinel)) = true →
        archivedSentinel ∈ allDates c10ps) ∧
      latestBefore (allDates c10ps) c10today ≠ some archivedSentinel :=
  carryover_source_not_archived c10today c10ps '2' (("024-05-10" : String).data)
    (by decide) (by decide)

/-! ## Claims C7 and C8 — the aggregation engine -/

/-- Lookup in the accumulator: value stored under a name. -/
def sbFind (m : StatsMap) (n : String) : Option (Int × Nat) :=
  (m.find? (fun e => decide (e.1 = n))).map (fun e => e.2)

/-- Lookup with the zero default. -/
def sbGet (m : StatsMap) (n : String) : Int × Nat := (sbFind m n).getD (0, 0)

lemma sbFind_cons (e : String × Int × Nat) (es : StatsMap) (n : String) :
    sbFind (e :: es) n = if e.1 = n then some e.2 else sbFind es n := by
  by_cases h : e.1 = n <;> simp [sbFind, List.find?, h]

lemma sbFind_bump_ne (m : StatsMap) (n : String) (v : Int) (k : String)
    (hk : k ≠ n) : sbFind (bumpName m n v) k = sbFind m k := by
  induction m with
  | nil => rfl
  | cons e es ih =>
      by_cases h : e.1 = n
      · simp only [bumpName, List.map_cons, if_pos h, sbFind_cons]
        rw [if_neg (fun hnk => hk hnk.symm), if_neg (fun hek => hk (hek.symm.trans h))]
        exact ih
      · simp only [bumpName, List.map_cons, if_neg h, sbFind_cons]
        by_cases hek : e.1 = k
        · rw [if_pos hek, if_pos hek]
        · rw [if_neg hek, if_neg hek]
          exact ih

lemma sbFind_bump_self (m : StatsMap) (n : String) (v : Int) (t : Int × Nat)
    (h : sbFind m n = some t) :
    sbFind (bumpName m n v) n = some (t.1 + v, t.2 + 1) := by
  induction m with
  | nil => simp [sbFind] at h
  | cons e es ih =>
      rw [sbFind_cons] at h
      by_cases he : e.1 = n
      · rw [if_pos he] at h
        obtain rfl : e.2 = t := Option.some.inj h
        simp only [bumpName, List.map_cons, if_pos he, sbFind_cons]
        simp
      · rw [if_neg he] at h
        simp only [bumpName, List.map_cons, if_neg he, sbFind_cons, if_neg he]
        exact ih h

lemma qualFilter_cons_pos (start : String) (e : String × Int) (es : DailyLog)
    (hq : strLtB e.1 start = false ∧ 0 < e.2) :
    (e :: es).filter (fun x => decide (strLtB x.1 start = false ∧ 0 < x.2))
      = e :: es.filter (fun x => decide (strLtB x.1 start = false ∧ 0 < x.2)) :=
  List.filter_cons_of_pos (decide_eq_true hq)

lemma qualFilter_cons_neg (start : String) (e : String × Int) (es : DailyLog)
    (hq : ¬ (strLtB e.1 start = false ∧ 0 < e.2)) :
    (e :: es).filter (fun x => decide (strLtB x.1 start = false ∧ 0 < x.2))
      = es.filter (fun x => decide (strLtB x.1 start = false ∧ 0 < x.2)) :=
  List.filter_cons_of_neg (by simpa using hq)

lemma addLogs_self (start n : String) (logs : DailyLog) :
    ∀ (m : StatsMap) (t : Int × Nat), sbFind m n = some t →
      sbFind (addLogs start n m logs) n
        = some (t.1 + ((logs.filter (fun e =>
              decide (strLtB e.1 start = false ∧ 0 < e.2))).map (fun e => e.2)).sum,
            t.2 + (logs.filter (fun e =>
              decide (strLtB e.1 start = false ∧ 0 < e.2))).length) := by
  induction logs with
  | nil =>
      intro m t h
      simpa [addLogs] using h
  | cons e es ih =>
      intro m t h
      by_cases hq : strLtB e.1 start = false ∧ 0 < e.2
      · have hrec := ih (bumpName m n e.2) (t.1 + e.2, t.2 + 1)
          (sbFind_bump_self m n e.2 t h)
        rw [addLogs] at hrec ⊢
        rw [List.foldl_cons, if_pos hq, hrec]
        rw [qualFilter_cons_pos start e es hq, List.map_cons,
          List.sum_cons, List.length_cons]
        rw [Option.some.injEq, Prod.mk.injEq]
        constructor <;> omega
      · have hrec := ih m t h
        rw [addLogs] at hrec ⊢
        rw [List.foldl_cons, if_neg hq, hrec]
        rw [qualFilter_cons_neg start e es hq]

lemma addLogs_ne (start n k : String) (hk : k ≠ n) (logs : DailyLog) :
    ∀ m : StatsMap, sbFind (addLogs start n m logs) k = sbFind m k := by
  induction logs with
  | nil => intro m; rfl
  | cons e es ih =>
      intro m
      simp only [addLogs] at ih ⊢
      rw [List.foldl_cons]
      by_cases hq : strLtB e.1 start = false ∧ 0 < e.2
      · rw [if_pos hq, ih, sbFind_bump_ne m n e.2 k hk]
      · rw [if_neg hq, ih]

lemma sbFind_ensure (m : StatsMap) (n : String) :
    sbFind (ensureName m n) n = some (sbGet m n) := by
  rw [ensureName]
  by_cases h : m.any (fun e => decide (e.1 = n)) = true
  · rw [if_pos h]
    have hsome : (m.find? (fun e => decide (e.1 = n))).isSome = true := by
      rw [List.find?_isSome]
      exact List.any_eq_true.mp h
    obtain ⟨e, he⟩ := Option.isSome_iff_exists.mp hsome
    simp [sbFind, sbGet, he]
  · rw [if_neg h]
    have hnone : m.find? (fun e => decide (e.1 = n)) = none := by
      rw [List.find?_eq_none]
      intro e he hpe
      exact h (List.any_eq_true.mpr ⟨e, he, hpe⟩)
    rw [sbFind, List.find?_append, hnone]
    simp [sbGet, sbFind, hnone, List.find?]

lemma sbFind_ensure_ne (m : StatsMap) (n k : String) (hk : k ≠ n) :
    sbFind (ensureName m n) k = sbFind m k := by
  rw [ensureName]
  by_cases h : m.any (fun e => decide (e.1 = n)) = true
  · rw [if_pos h]
  · rw [if_neg h, sbFind, List.find?_append]
    have hnk : decide ((n : String) = k) = false :=
      decide_eq_false (fun hh => hk hh.symm)
    have hone : List.find? (fun e => decide (e.1 = k)) [(n, (0 : Int), (0 : Nat))]
        = none := by
      simp only [List.find?]
      rw [hnk]
    rw [hone]
    simp [sbFind]

lemma sbFind_addProject (start : String) (m : StatsMap) (p : Project)
    (k : String) :
    sbFind (addProject start m p) k
      = if k = jsTrim p.name then
          some ((sbGet m k).1 + ((qualEntries start p).map (fun e => e.2)).sum,
                (sbGet m k).2 + (qualEntries start p).length)
        else sbFind m k := by
  by_cases hk : k = jsTrim p.name
  · rw [if_pos hk, addProject, ← hk]
    exact addLogs_self start k p.logs (ensureName m k) (sbGet m k)
      (sbFind_ensure m k)
  · rw [if_neg hk, addProject, addLogs_ne start (jsTrim p.name) k hk,
      sbFind_ensure_ne m (jsTrim p.name) k hk]

lemma specTotal_cons (start : String) (p : Project) (ps : List Project)
    (k : String) :
    specTotal start (p :: ps) k
      = (if jsTrim p.name = k then ((qualEntries start p).map (fun e => e.2)).sum
         else 0) + specTotal start ps k := by
  rw [specTotal, specTotal]
  by_cases h : jsTrim p.name = k
  · rw [if_pos h, List.filter_cons_of_pos (by simpa using h), List.flatMap_cons,
      List.map_append, List.sum_append]
  · rw [if_neg h, List.filter_cons_of_neg (by simpa using h), zero_add]

lemma specOcc_cons (start : String) (p : Project) (ps : List Project)
    (k : String) :
    specOcc start (p :: ps) k
      = (if jsTrim p.name = k then (qualEntries start p).length else 0)
        + specOcc start ps k := by
  rw [specOcc, specOcc]
  by_cases h : jsTrim p.name = k
  · rw [if_pos h, List.filter_cons_of_pos (by simpa using h), List.flatMap_cons,
      List.length_append]
  · rw [if_neg h, List.filter_cons_of_neg (by simpa using h), Nat.zero_add]

lemma sbGet_statsFold (start : String) :
    ∀ (ps : List Project) (m : StatsMap) (k : String),
      sbGet (ps.foldl (addProject start) m) k
        = ((sbGet m k).1 + specTotal start ps k,
           (sbGet m k).2 + specOcc start ps k) := by
  intro ps
  induction ps with
  | nil =>
      intro m k
      simp [specTotal, specOcc]
  | cons p ps' ih =>
      intro m k
      rw [List.foldl_cons, ih (addProject start m p) k,
        specTotal_cons, specOcc_cons]
      by_cases hk : k = jsTrim p.name
      · have hfind := sbFind_addProject start m p k
        rw [if_pos hk] at hfind
        have hget : sbGet (addProject start m p) k
            = ((sbGet m k).1 + ((qualEntries start p).map (fun e => e.2)).sum,
               (sbGet m k).2 + (qualEntries start p).length) := by
          rw [sbGet, hfind]
          rfl
        rw [hget, if_pos hk.symm, if_pos hk.symm, Prod.mk.injEq]
        constructor <;> omega
      · have hfind := sbFind_addProject start m p k
        rw [if_neg hk] at hfind
        have hget : sbGet (addProject start m p) k = sbGet m k := by
          rw [sbGet, hfind]
          rfl
        have hk' : ¬ jsTrim p.name = k := fun h => hk h.symm
        rw [hget, if_neg hk', if_neg hk', Prod.mk.injEq]
        constructor <;> omega

lemma statsByName_get (start : String) (ps : List Project) (k : String) :
    sbGet (statsByName start ps) k
      = (specTotal start ps k, specOcc start ps k) := by
  rw [statsByName, sbGet_statsFold start ps [] k]
  simp [sbGet, sbFind]

/-- Keys of the accumulator. -/
def keysOf (m : StatsMap) : List String := m.map (fun e => e.1)

lemma keysOf_bump (m : StatsMap) (n : String) (v : Int) :
    keysOf (bumpName m n v) = keysOf m := by
  rw [keysOf, bumpName, List.map_map]
  apply List.map_congr_left
  intro e _
  by_cases h : e.1 = n <;> simp [Function.comp, h]

lemma keysOf_addLogs (start n : String) (logs : DailyLog) :
    ∀ m : StatsMap, keysOf (addLogs start n m logs) = keysOf m := by
  induction logs with
  | nil => intro m; rfl
  | cons e es ih =>
      intro m
      simp only [addLogs] at ih ⊢
      rw [List.foldl_cons]
      by_cases hq : strLtB e.1 start = false ∧ 0 < e.2
      · rw [if_pos hq, ih, keysOf_bump]
      · rw [if_neg hq, ih]

lemma keysOf_ensure_nodup (m : StatsMap) (n : String)
    (h : (keysOf m).Nodup) : (keysOf (ensureName m n)).Nodup := by
  rw [ensureName]
  by_cases ha : m.any (fun e => decide (e.1 = n)) = true
  · rw [if_pos ha]
    exact h
  · rw [if_neg ha, keysOf, List.map_append]
    rw [List.nodup_append]
    refine ⟨h, List.nodup_singleton n, ?_⟩
    intro a hain hasingle
    obtain ⟨e, he, rfl⟩ := List.mem_map.mp hain
    have hen : e.1 = n := by simpa using hasingle
    exact ha (List.any_eq_true.mpr ⟨e, he, decide_eq_true hen⟩)

lemma keysOf_statsByName_nodup (start : String) (ps : List Project) :
    (keysOf (statsByName start ps)).Nodup := by
  rw [statsByName]
  have : ∀ (qs : List Project) (m : StatsMap), (keysOf m).Nodup →
      (keysOf (qs.foldl (addProject start) m)).Nodup := by
    intro qs
    induction qs with
    | nil => intro m hm; exact hm
    | cons p ps' ih =>
        intro m hm
        rw [List.foldl_cons]
        apply ih
        rw [addProject, keysOf_addLogs]
        exact keysOf_ensure_nodup m (jsTrim p.name) hm
  exact this ps [] List.nodup_nil

lemma sbFind_of_mem (m : StatsMap) (e : String × Int × Nat) (he : e ∈ m)
    (hnd : (keysOf m).Nodup) : sbFind m e.1 = some e.2 := by
  induction m with
  | nil => exact absurd he (List.not_mem_nil e)
  | cons x xs ih =>
      have hnd' := List.nodup_cons.mp hnd
      rcases List.mem_cons.mp he with h | h
      · subst h
        rw [sbFind_cons, if_pos rfl]
      · have hne : x.1 ≠ e.1 := by
          intro hx
          apply hnd'.1
          show x.1 ∈ List.map (fun e => e.1) xs
          rw [hx]
          exact List.mem_map.mpr ⟨e, h, rfl⟩
        rw [sbFind_cons, if_neg hne]
        exact ih h hnd'.2

lemma mem_aggregatedStats (start : String) (ps : List Project) (r : StatRow)
    (hr : r ∈ aggregatedStats start ps) :
    r.total = specTotal start ps r.name ∧
      r.occurrences = specOcc start ps r.name ∧ 0 < r.total := by
  rw [aggregatedStats] at hr
  have hr1 := (List.mem_insertionSort aggRel).mp hr
  have hr2 := List.mem_filter.mp hr1
  obtain ⟨e, he, hre⟩ := List.mem_map.mp hr2.1
  have hfind := sbFind_of_mem (statsByName start ps) e he
    (keysOf_statsByName_nodup start ps)
  have hget : sbGet (statsByName start ps) e.1 = e.2 := by
    rw [sbGet, hfind]
    rfl
  rw [statsByName_get] at hget
  subst hre
  refine ⟨?_, ?_, of_decide_eq_true hr2.2⟩
  · exact (congrArg Prod.fst hget).symm
  · exact (congrArg Prod.snd hget).symm

/-- C7: every output row's total sums exactly the log entries dated at or
after the start date with positive value for its name, rows with zero
total are excluded, and the rows are sorted by descending total. -/
theorem aggregate_window_and_sorted (start : String) (ps : List Project) :
    (∀ r ∈ aggregatedStats start ps,
        0 < r.total ∧ r.total = specTotal start ps r.name) ∧
      List.Pairwise (fun a b => b.total ≤ a.total) (aggregatedStats start ps) := by
  constructor
  · intro r hr
    have h := mem_aggregatedStats start ps r hr
    exact ⟨h.2.2, h.1⟩
  · exact List.sorted_insertionSort aggRel _

def c7start : String := "2024-01-01"

def c7p : Project :=
  { id := "r1", name := "Run", count := 2, logs := [("2024-01-02", 2)],
    createdAt := 0, lastActiveDate := "2024-01-02" }

def c7ps : List Project := [c7p]

def c7row : StatRow := { name := "Run", total := 2, occurrences := 1 }

/-- Witness for the C7 theorem at a concrete store. -/
theorem aggregate_window_and_sorted_witness :
    0 < c7row.total ∧ c7row.total = specTotal c7start c7ps c7row.name :=
  (aggregate_window_and_sorted c7start c7ps).1 c7row (by decide)

def c8start : String := "2024-01-01"

def c8day : String := "2024-01-02"

/-- Two distinct projects sharing the normalised name water, with positive
logs on the same day. Reachable: creating the same name twice on one day
passes the restore check, since the first copy is already active today. -/
def c8p1 : Project :=
  { id := "x1", name := "water", count := 1, logs := [(c8day, 1)],
    createdAt := 0, lastActiveDate := c8day }

def c8p2 : Project :=
  { id := "x2", name := "water", count := 1, logs := [(c8day, 1)],
    createdAt := 1, lastActiveDate := c8day }

def c8ps : List Project := [c8p1, c8p2]

/-- C8 counterexample: with two same-named projects logging on the same
day, the aggregation reports occurrences 2 while the number of distinct
qualifying calendar days is 1 — occurrences counts qualifying entries, not
distinct days. -/
theorem occurrences_not_distinct_days :
    ((aggregatedStats c8start c8ps).map (fun r => (r.name, r.occurrences))
        = [("water", 2)]) ∧
      specDistinctDays c8start c8ps ("water") = 1 ∧ (2 : Nat) ≠ 1 := by
  refine ⟨by decide, by decide, by decide⟩

/-- C8 amended: the occurrences column of a row counts the qualifying log
entries (project-day pairs dated at or after the start date with positive
value) across all projects with the row's normalised name; this equals the
number of distinct qualifying days only when no two such projects log on
the same day. -/
theorem aggregate_occurrences_entries (start : String) (ps : List Project) :
    ∀ r ∈ aggregatedStats start ps, r.occurrences = specOcc start ps r.name :=
  fun r hr => (mem_aggregatedStats start ps r hr).2.1

/-- Witness for the amended C8 theorem at the two-project store. -/
theorem aggregate_occurrences_entries_witness :
    (StatRow.mk ("water") 2 2).occurrences
      = specOcc c8start c8ps (StatRow.mk ("water") 2 2).name :=
  aggregate_occurrences_entries c8start c8ps (StatRow.mk ("water") 2 2)
    (by decide)

end DailyCounter
